import Mathlib

/-!
Shallow embedding of the Adaptive Assessment Engine of src/app.py.

The Python source is a Streamlit application.  Pure computations are
translated to Lean functions; the implicit Streamlit session state is an
explicit AppState record threaded through the state-changing functions;
randomness is an explicit stream of unit-interval rationals plus an
abstract final-shuffle function; the file system and the network are
explicit parameters.  Python floats are modelled as rationals; Python
exceptions are modelled by Option results, with none standing for an
uncaught exception escaping the function.
-/

set_option autoImplicit false
set_option maxHeartbeats 1000000

/-- A question record in the BANK schema of src/app.py:
id, cat, sub, diff, text, opts, ans, exp. -/
structure Question where
  id : String
  cat : String
  sub : String
  diff : String
  text : String
  opts : List String
  ans : Nat
  exp : String
deriving Repr, DecidableEq

/-- Placeholder question used only to realise list indexing that the
source performs on provably in-range indices. -/
def defaultQ : Question :=
  { id := "", cat := "", sub := "", diff := "", text := "", opts := [], ans := 0, exp := "" }

/-- First-match association-list lookup, modelling a Python dict read. -/
def alookup {α β : Type} [DecidableEq α] (k : α) : List (α × β) → Option β
  | [] => none
  | (k0, v) :: rest => if k0 = k then some v else alookup k rest

/-- Models weights_dict.get(qid, 1.0) from weighted_sample and
update_question_weights in src/app.py. -/
def getWeight (weights : List (String × ℚ)) (qid : String) : ℚ :=
  (alookup qid weights).getD 1

/-- Models a Python dict write: overwrite the entry for the key if present,
append it otherwise. -/
def insertWeight : List (String × ℚ) → String → ℚ → List (String × ℚ)
  | [], k, v => [(k, v)]
  | (k0, v0) :: rest, k, v =>
    if k0 = k then (k, v) :: rest else (k0, v0) :: insertWeight rest k v

/-- One roulette draw from weighted_sample in src/app.py: walk the zipped
remaining (index, probability) list accumulating cum, and take the first
entry with r ≤ cum, returning it and the list with that entry removed.
Returns none when no entry fires, as the Python inner for loop then ends
without a break and appends nothing. -/
def drawOneAux (r : ℚ) : ℚ → List (ℕ × ℚ) → Option (ℕ × List (ℕ × ℚ))
  | _, [] => none
  | cum, (idx, p) :: rest =>
    if r ≤ cum + p then some (idx, rest)
    else
      match drawOneAux r (cum + p) rest with
      | some (i, rem) => some (i, (idx, p) :: rem)
      | none => none

/-- The k-iteration outer loop of weighted_sample in src/app.py.  At step t
the Python call random.uniform(0, total_p) is realised as u t * total_p,
which is exactly how the library computes it from a unit-interval draw. -/
def drawLoop (u : ℕ → ℚ) : ℕ → ℕ → List (ℕ × ℚ) → List ℕ
  | _, 0, _ => []
  | t, k + 1, rem =>
    let total_p := (rem.map Prod.snd).sum
    let r := u t * total_p
    match drawOneAux r 0 rem with
    | some (idx, rem2) => idx :: drawLoop u (t + 1) k rem2
    | none => drawLoop u (t + 1) k rem

/-- Embedding of weighted_sample(pool, n, weights_dict) from src/app.py.
u is the stream of unit-interval random draws and shuffle models the final
random.shuffle call.  The result is none exactly when the Python code
raises: probs = [w / total for w in wts] divides by zero when the summed
weight of the pool is zero (Python float division by zero raises). -/
def weighted_sample (pool : List Question) (n : ℕ) (weights_dict : List (String × ℚ))
    (u : ℕ → ℚ) (shuffle : List Question → List Question) : Option (List Question) :=
  if pool.isEmpty then some []
  else
    let wts := pool.map (fun q => getWeight weights_dict q.id)
    let total := wts.sum
    if total = 0 then none
    else
      let probs := wts.map (fun w => w / total)
      let k := min n pool.length
      let chosenIdx := drawLoop u 0 k ((List.range pool.length).zip probs)
      some (shuffle (chosenIdx.map (fun i => pool.getD i defaultQ)))

/-- The per-question weight rule of update_question_weights in src/app.py:
unanswered boosts by 1.5 capped at 5.0, wrong boosts by 1.3 capped at 5.0,
correct decays by 0.8 floored at 1.0. -/
def applyWeightUpdate (w : ℚ) (ua : Option ℕ) (correctAns : ℕ) : ℚ :=
  match ua with
  | none => min (w * 1.5) 5
  | some a => if a ≠ correctAns then min (w * 1.3) 5 else max (w * 0.8) 1

/-- The enumerate loop of update_question_weights in src/app.py, carrying
the running question index and the evolving weight dict. -/
def updateLoop (answers : List (ℕ × ℕ)) : ℕ → List Question → List (String × ℚ) → List (String × ℚ)
  | _, [], ws => ws
  | i, q :: rest, ws =>
    updateLoop answers (i + 1) rest
      (insertWeight ws q.id
        (applyWeightUpdate (getWeight ws q.id) (alookup i answers) q.ans))

/-- Embedding of update_question_weights(questions, answers) from
src/app.py, applied to an explicit prior weight map. -/
def update_question_weights (questions : List Question) (answers : List (ℕ × ℕ))
    (weights : List (String × ℚ)) : List (String × ℚ) :=
  updateLoop answers 0 questions weights

/-- The grading loop of submit_test in src/app.py, returning
(correct, wrong, unanswered) for the questions from index i on. -/
def gradeLoop (answers : List (ℕ × ℕ)) : ℕ → List Question → ℕ × ℕ × ℕ
  | _, [] => (0, 0, 0)
  | i, q :: rest =>
    let g := gradeLoop answers (i + 1) rest
    match alookup i answers with
    | none => (g.1, g.2.1, g.2.2 + 1)
    | some ua => if ua = q.ans then (g.1 + 1, g.2.1, g.2.2) else (g.1, g.2.1 + 1, g.2.2)

/-- Grading a whole session: (correct, wrong, unanswered) counts. -/
def gradeCounts (questions : List Question) (answers : List (ℕ × ℕ)) : ℕ × ℕ × ℕ :=
  gradeLoop answers 0 questions

/-- The Python built-in round on an exact rational: round half to even. -/
def pyRound (x : ℚ) : ℤ :=
  let f := Int.floor x
  let frac := x - (f : ℚ)
  if frac < 1 / 2 then f
  else if 1 / 2 < frac then f + 1
  else if f % 2 = 0 then f else f + 1

/-- The ephemeral test record stored in st.session_state.current_test by
start_test in src/app.py. -/
structure TestSession where
  id : String
  category : String
  questions : List Question
  time_limit : ℕ
  sample : Bool
deriving Repr, DecidableEq

/-- The result record built by submit_test in src/app.py and appended to
test_history. -/
structure HistRecord where
  id : String
  category : String
  score : ℤ
  correct : ℕ
  wrong : ℕ
  unanswered : ℕ
  total_q : ℕ
  date : String
  time_taken : ℤ
  answers : List (ℕ × ℕ)
  questions : List Question
deriving Repr, DecidableEq

/-- The slice of st.session_state that the Adaptive Assessment Engine of
src/app.py reads and writes. -/
structure AppState where
  current_test : Option TestSession
  answers : List (ℕ × ℕ)
  flagged : List ℕ
  current_q : ℕ
  time_remaining : ℤ
  test_start : ℤ
  test_history : List HistRecord
  question_weights : List (String × ℚ)
  last_result : Option HistRecord
  page : String
deriving Repr, DecidableEq

/-- All questions of the bank in category order, modelling the
comprehension [q for qs in BANK.values() for q in qs] in src/app.py. -/
def allBankQs (bank : List (String × List Question)) : List Question :=
  (bank.map Prod.snd).flatten

/-- The pool assembled by start_test in src/app.py for one category:
list(BANK.get(category, [])) extended with the cached AI questions when
the category defines a generation profile in PLATFORM_STYLES. -/
def poolFor (bank : List (String × List Question)) (platform_styles : List String)
    (aiQs : String → List Question) (category : String) : List Question :=
  (alookup category bank).getD [] ++
    (if category ∈ platform_styles then aiQs category else [])

/-- Embedding of build_blended_test(n) from src/app.py. -/
def build_blended_test (bank : List (String × List Question)) (weights : List (String × ℚ))
    (u : ℕ → ℚ) (shuffle : List Question → List Question) (n : ℕ) : Option (List Question) :=
  weighted_sample (allBankQs bank) n weights u shuffle

/-- The question-selection and timer-computation core of start_test in
src/app.py, returning the sampled questions and the time limit in
seconds. -/
def pickQuestions (bank : List (String × List Question)) (platform_styles : List String)
    (aiQs : String → List Question) (weights : List (String × ℚ))
    (u : ℕ → ℚ) (shuffle : List Question → List Question)
    (category : String) (sample : Bool) : Option (List Question × ℕ) :=
  if sample then
    (weighted_sample
        (if category = "BLEND" then allBankQs bank
         else poolFor bank platform_styles aiQs category)
        5 weights u shuffle).map (fun qs => (qs, 5 * 60))
  else if category = "BLEND" then
    (build_blended_test bank weights u shuffle 60).map (fun qs => (qs, (60 - 5) * 60))
  else
    let pool := poolFor bank platform_styles aiQs category
    let n := min pool.length 20
    (weighted_sample pool n weights u shuffle).map (fun qs => (qs, max (n - 5) 5 * 60))

/-- Embedding of start_test(category, sample) from src/app.py: builds the
session record and resets the per-test session state. sessionId models the
datetime.now() id string and nowT the time.time() start instant. -/
def start_test (bank : List (String × List Question)) (platform_styles : List String)
    (aiQs : String → List Question) (u : ℕ → ℚ) (shuffle : List Question → List Question)
    (st : AppState) (sessionId : String) (nowT : ℤ)
    (category : String) (sample : Bool) : Option AppState :=
  (pickQuestions bank platform_styles aiQs st.question_weights u shuffle category sample).map
    (fun p =>
      { st with
        current_test := some
          { id := sessionId, category := category, questions := p.1,
            time_limit := p.2, sample := sample },
        answers := [],
        flagged := [],
        current_q := 0,
        time_remaining := (p.2 : ℤ),
        test_start := nowT,
        page := "active_test" })

/-- Embedding of submit_test() from src/app.py.  The result is none exactly
when the Python code raises: score = round(correct / n * 100) divides by
zero for a zero-question session. -/
def submit_test (st : AppState) (now : ℤ) (dateStr : String) : Option AppState :=
  match st.current_test with
  | none => some st
  | some test =>
    let questions := test.questions
    let n := questions.length
    let g := gradeCounts questions st.answers
    if n = 0 then none
    else
      let score := pyRound ((g.1 : ℚ) / (n : ℚ) * 100)
      let result : HistRecord :=
        { id := test.id, category := test.category, score := score,
          correct := g.1, wrong := g.2.1, unanswered := g.2.2,
          total_q := n, date := dateStr, time_taken := now - st.test_start,
          answers := st.answers, questions := questions }
      some
        { st with
          test_history := st.test_history ++ [result],
          last_result := some result,
          question_weights := update_question_weights questions st.answers st.question_weights,
          current_test := none,
          page := "results" }

/-- The state-relevant head of render_active_test() in src/app.py: redirect
home when no test is live, otherwise recompute the remaining time and
auto-submit when it has run out. -/
def render_active_test (st : AppState) (now : ℤ) (dateStr : String) : Option AppState :=
  match st.current_test with
  | none => some { st with page := "home" }
  | some test =>
    let elapsed := now - st.test_start
    let remaining := max 0 ((test.time_limit : ℤ) - elapsed)
    let st1 := { st with time_remaining := remaining }
    if remaining ≤ 0 then submit_test st1 now dateStr
    else some st1

/-- A JSON value, as produced by json.loads in src/app.py. -/
inductive JVal where
  | str (s : String)
  | num (n : ℤ)
  | boolv (b : Bool)
  | nullv
  | arr (items : List JVal)
  | obj (fields : List (String × JVal))

/-- Abstraction of the Python str() conversion applied to option entries in
generate_ai_questions in src/app.py; only the string case is ever
distinguished by the specification. -/
def jstr : JVal → String
  | .str s => s
  | .num n => toString n
  | .boolv b => if b then "True" else "False"
  | .nullv => "None"
  | .arr _ => "[...]"
  | .obj _ => "\x7b...\x7d"

/-- Python int() coercion applied to the ans field in src/app.py: ints pass
through, bools coerce to 0 or 1, digit strings parse, everything else
raises ValueError or TypeError (modelled by none). -/
def coerceAns : JVal → Option ℤ
  | .num n => some n
  | .boolv b => some (if b then 1 else 0)
  | .str s => s.toInt?
  | _ => none

/-- Two-digit ordinal formatting, modelling the idx:02d format specifier in
generate_ai_questions in src/app.py. -/
def fmt2 (n : ℕ) : String :=
  if n < 10 then "0" ++ toString n else toString n

/-- Validation of one parsed item in the loop of generate_ai_questions in
src/app.py: drop non-objects and items missing one of text, opts, ans, exp
or whose opts is not a list of length at least 2; truncate opts to 4 and
pad to 4 with the placeholder; coerce ans and reset it to 0 when the
coercion fails or the value is out of range. -/
def validateItem (category platform_hint platforms ts : String) (idx : ℕ) (j : JVal) :
    Option Question :=
  match j with
  | .obj fields =>
    match alookup "text" fields, alookup "opts" fields,
        alookup "ans" fields, alookup "exp" fields with
    | some tv, some ov, some av, some ev =>
      match ov with
      | .arr opts0 =>
        if opts0.length < 2 then none
        else
          let opts := (opts0.take 4).map jstr ++
            List.replicate (4 - min opts0.length 4) "Not determinable"
          let ansIdx : ℕ :=
            match coerceAns av with
            | some a => if 0 ≤ a ∧ a < (opts.length : ℤ) then a.toNat else 0
            | none => 0
          let platform_tag := if platform_hint = "" then "AI" else platform_hint.replace " " ""
          some
            { id := platform_tag ++ "_" ++ category.toUpper ++ "_" ++ ts ++ "_" ++ fmt2 idx,
              cat := category,
              sub := "AI — " ++
                (if platform_hint = "" then ((platforms.splitOn ",").headD "").trim
                 else platform_hint),
              diff := ["easy", "medium", "hard"].getD (idx % 3) "easy",
              text := jstr tv,
              opts := opts,
              ans := ansIdx,
              exp := jstr ev }
      | _ => none
    | _, _, _, _ => none
  | _ => none

/-- The full validation loop of generate_ai_questions in src/app.py over
the parsed array, carrying the enumerate index. -/
def validateLoop (category platform_hint platforms ts : String) :
    ℕ → List JVal → List Question
  | _, [] => []
  | idx, j :: rest =>
    match validateItem category platform_hint platforms ts idx j with
    | some q => q :: validateLoop category platform_hint platforms ts (idx + 1) rest
    | none => validateLoop category platform_hint platforms ts (idx + 1) rest

/-- Validation of a whole parsed generation-service reply. -/
def validateItems (category platform_hint platforms ts : String) (parsed : List JVal) :
    List Question :=
  validateLoop category platform_hint platforms ts 0 parsed

/-- resp.json()["content"][0]["text"].strip() from src/app.py; none models
the caught KeyError, IndexError, TypeError or AttributeError. -/
def extractText : JVal → Option String
  | .obj fields =>
    match alookup "content" fields with
    | some (.arr (first :: _)) =>
      match first with
      | .obj f2 =>
        match alookup "text" f2 with
        | some (.str s) => some s.trim
        | _ => none
      | _ => none
    | _ => none
  | _ => none

/-- The markdown-fence stripping of generate_ai_questions in src/app.py. -/
def stripFences (raw : String) : String :=
  let parts := raw.splitOn "```"
  if parts.length > 1 then
    match parts.find? (fun part =>
        (part.trim).startsWith "[" || (part.trim).startsWith "json\n[") with
    | some part =>
      let r := part.trim
      if r.startsWith "json" then (r.drop 4).trim else r
    | none => raw
  else raw

/-- The defensive array-boundary slice of generate_ai_questions in
src/app.py: keep the text from the first opening bracket to the last
closing bracket when such a span exists. -/
def sliceJsonArray (s : String) : String :=
  let cs := s.data
  match cs.indexOf? '[', cs.reverse.indexOf? ']' with
  | some i, some jr =>
    let j := cs.length - 1 - jr
    if i < j + 1 then String.mk ((cs.drop i).take (j + 1 - i)) else s
  | _, _ => s

/-- Outcome of the requests.post call in generate_ai_questions in
src/app.py: netError models a timeout or connection failure raised by the
library, response carries the status code and the parsed JSON body, with
none for a non-JSON body on which resp.json() raises. -/
inductive NetResult where
  | netError
  | response (status : ℕ) (body : Option JVal)

/-- Embedding of generate_ai_questions(category, n, platform_hint) from
src/app.py, from the credential check onward.  parseJson models
json.loads applied to the extracted reply text, ts the batch timestamp. -/
def generate_ai_questions (apiKey : String) (net : NetResult)
    (parseJson : String → Option JVal)
    (category platform_hint platforms ts : String) : List Question :=
  if apiKey = "" then []
  else
    match net with
    | .netError => []
    | .response status body =>
      if status ≠ 200 then []
      else
        match body with
        | none => []
        | some j =>
          match extractText j with
          | none => []
          | some raw0 =>
            let raw := sliceJsonArray (stripFences raw0)
            match parseJson raw with
            | some (.arr parsed) => validateItems category platform_hint platforms ts parsed
            | _ => []

/-- State of the persistent storage file of src/app.py: absent, unreadable
(open raises), or present with content that json.load either parses to a
JVal or fails on (none). -/
inductive FileRead where
  | absent
  | unreadable
  | content (parsed : Option JVal)

/-- The default document returned by load_persistent_data in src/app.py
when the file is missing or unreadable. -/
def defaultDoc : JVal :=
  .obj [("test_history", .arr []), ("question_weights", .obj [])]

/-- Embedding of load_persistent_data() from src/app.py. -/
def load_persistent_data : FileRead → JVal
  | .absent => defaultDoc
  | .unreadable => defaultDoc
  | .content none => defaultDoc
  | .content (some j) => j

/-- Outcome of the guarded write in save_persistent_data in src/app.py.
open(STORAGE_PATH, "w") truncates the file before json.dump streams into
it, so a failure raised by open itself leaves the old file untouched,
while a failure during the dump leaves a truncated partial file holding
whatever prefix of the document was flushed; truncated carries what that
prefix parses to on the next load, none when it is not valid JSON (which
holds for every proper prefix of the serialised object). -/
inductive WriteOutcome where
  | openFails
  | dumpFails (truncated : Option JVal)
  | success

/-- Embedding of save_persistent_data() from src/app.py: history and
weights are the JSON encodings of the in-memory state; the first component
is the resulting file state, the second the in-memory state, which the
function never changes because every exception of the write is caught and
ignored. -/
def save_persistent_data (history weights : JVal) (outcome : WriteOutcome)
    (oldFile : FileRead) : FileRead × (JVal × JVal) :=
  (match outcome with
   | .openFails => oldFile
   | .dumpFails truncated => .content truncated
   | .success =>
     .content (some (.obj [("test_history", history), ("question_weights", weights)])),
   (history, weights))

/-- Zero randomness stream: every unit-interval draw is 0. -/
def u0 : ℕ → ℚ := fun _ => 0

/-- Sample questions for concrete evaluations. -/
def qex1 : Question :=
  { id := "q1", cat := "A", sub := "s", diff := "easy", text := "t1",
    opts := ["a", "b", "c", "d"], ans := 0, exp := "e1" }

def qex2 : Question :=
  { id := "q2", cat := "A", sub := "s", diff := "easy", text := "t2",
    opts := ["a", "b", "c", "d"], ans := 1, exp := "e2" }

def qBx (i : ℕ) : Question :=
  { id := "qb" ++ toString i, cat := "B", sub := "s", diff := "easy",
    text := "tb" ++ toString i, opts := ["a", "b", "c", "d"], ans := 0, exp := "eb" }

/-- A concrete bank: category A has a single question while category B has
six, so a pool shortage for A could in principle be backfilled from B. -/
def bankEx : List (String × List Question) :=
  [("A", [qex1]), ("B", [qBx 0, qBx 1, qBx 2, qBx 3, qBx 4, qBx 5])]

/-- A fresh app state as initialised before any test. -/
def st0 : AppState :=
  { current_test := none, answers := [], flagged := [], current_q := 0,
    time_remaining := 0, test_start := 0, test_history := [],
    question_weights := [], last_result := none, page := "home" }

/-- A live one-question session used to exercise the timer and grading. -/
def sessEx : TestSession :=
  { id := "s1", category := "A", questions := [qex1], time_limit := 300, sample := false }

/-- An app state inside the active phase of sessEx. -/
def stAct : AppState :=
  { current_test := some sessEx, answers := [(0, 0)], flagged := [], current_q := 0,
    time_remaining := 300, test_start := 0, test_history := [],
    question_weights := [], last_result := none, page := "active_test" }

/-- A generated item whose answer index 7 is out of range for its four
options. -/
def itemClampEx : JVal :=
  .obj [("text", .str "t"), ("opts", .arr [.str "A", .str "B", .str "C", .str "D"]),
        ("ans", .num 7), ("exp", .str "e")]

/-- A parsed batch with one malformed item (missing opts) between two valid
ones. -/
def parsedEx : List JVal :=
  [.obj [("text", .str "t0"), ("opts", .arr [.str "A", .str "B"]),
         ("ans", .num 1), ("exp", .str "e0")],
   .obj [("text", .str "t1"), ("ans", .num 0), ("exp", .str "e1")],
   .obj [("text", .str "t2"), ("opts", .arr [.str "A", .str "B", .str "C"]),
         ("ans", .num 2), ("exp", .str "e2")]]

/-- A parse function that always fails, for concrete degraded-mode runs. -/
def pj0 : String → Option JVal := fun _ => none

theorem alookup_mem {α β : Type} [DecidableEq α] (k : α) (l : List (α × β)) {v : β}
    (h : alookup k l = some v) : (k, v) ∈ l := by
  induction l with
  | nil => simp [alookup] at h
  | cons hd tl ih =>
    obtain ⟨k0, v0⟩ := hd
    by_cases hk : k0 = k
    · subst hk
      simp [alookup] at h
      subst h
      exact List.mem_cons_self _ _
    · simp only [alookup, if_neg hk] at h
      exact List.mem_cons_of_mem _ (ih h)

theorem getWeight_pos (weights : List (String × ℚ)) (qid : String)
    (hw : ∀ p ∈ weights, 0 < p.2) : 0 < getWeight weights qid := by
  unfold getWeight
  cases hals : alookup qid weights with
  | none => simp
  | some w => simpa using hw (qid, w) (alookup_mem _ _ hals)

theorem drawOneAux_isSome (r : ℚ) :
    ∀ (rem : List (ℕ × ℚ)) (cum : ℚ), rem ≠ [] →
      r ≤ cum + (rem.map Prod.snd).sum → (drawOneAux r cum rem).isSome := by
  intro rem
  induction rem with
  | nil => intro cum h _; exact absurd rfl h
  | cons hd tl ih =>
    intro cum _ hle
    obtain ⟨idx, p⟩ := hd
    by_cases hr : r ≤ cum + p
    · simp [drawOneAux, hr]
    · simp only [drawOneAux, if_neg hr]
      cases tl with
      | nil =>
        exfalso
        apply hr
        simpa using hle
      | cons a as =>
        have h2 : r ≤ (cum + p) + ((a :: as).map Prod.snd).sum := by
          simp only [List.map_cons, List.sum_cons] at hle ⊢
          linarith
        have hsome := ih (cum + p) (by simp) h2
        obtain ⟨⟨i, rem⟩, heq⟩ := Option.isSome_iff_exists.mp hsome
        rw [heq]
        simp

theorem drawOneAux_perm (r : ℚ) :
    ∀ (rem : List (ℕ × ℚ)) (cum : ℚ) (i : ℕ) (rem2 : List (ℕ × ℚ)),
      drawOneAux r cum rem = some (i, rem2) → ∃ p, rem.Perm ((i, p) :: rem2) := by
  intro rem
  induction rem with
  | nil => intro cum i rem2 h; simp [drawOneAux] at h
  | cons hd tl ih =>
    intro cum i rem2 h
    obtain ⟨idx, q⟩ := hd
    by_cases hr : r ≤ cum + q
    · simp [drawOneAux, hr] at h
      obtain ⟨h1, h2⟩ := h
      subst h1
      subst h2
      exact ⟨q, List.Perm.refl _⟩
    · simp only [drawOneAux, if_neg hr] at h
      cases heq : drawOneAux r (cum + q) tl with
      | none => rw [heq] at h; simp at h
      | some x =>
        obtain ⟨i2, rem3⟩ := x
        rw [heq] at h
        simp at h
        obtain ⟨hi, hrem⟩ := h
        obtain ⟨p, hperm⟩ := ih (cum + q) i2 rem3 heq
        refine ⟨p, ?_⟩
        rw [← hi, ← hrem]
        exact (hperm.cons (idx, q)).trans (List.Perm.swap (i2, p) (idx, q) rem3)

theorem drawLoop_spec (u : ℕ → ℚ) (hu : ∀ s, 0 ≤ u s ∧ u s < 1) :
    ∀ (k t : ℕ) (rem : List (ℕ × ℚ)),
      (∀ x ∈ rem, 0 < x.2) → ((rem.map Prod.fst).Nodup) → k ≤ rem.length →
      (drawLoop u t k rem).length = k ∧ (drawLoop u t k rem).Nodup ∧
        ∀ i ∈ drawLoop u t k rem, i ∈ rem.map Prod.fst := by
  intro k
  induction k with
  | zero => intro t rem _ _ _; simp [drawLoop]
  | succ k ih =>
    intro t rem hpos hnd hlen
    have hne : rem ≠ [] := by
      intro h
      subst h
      simp at hlen
    have hsum : 0 < (rem.map Prod.snd).sum := by
      apply List.sum_pos
      · intro x hx
        obtain ⟨y, hy, rfl⟩ := List.mem_map.mp hx
        exact hpos y hy
      · simpa using hne
    have hr0 : u t * (rem.map Prod.snd).sum ≤ 0 + (rem.map Prod.snd).sum := by
      have h1 := (hu t).1
      have h2 := (hu t).2
      nlinarith
    have hsome := drawOneAux_isSome (u t * (rem.map Prod.snd).sum) rem 0 hne hr0
    obtain ⟨⟨i, rem2⟩, heq⟩ := Option.isSome_iff_exists.mp hsome
    obtain ⟨p, hperm⟩ := drawOneAux_perm _ rem 0 i rem2 heq
    have hlen2 : rem.length = rem2.length + 1 := by simpa using hperm.length_eq
    have hfstperm : (rem.map Prod.fst).Perm (i :: rem2.map Prod.fst) := by
      simpa using hperm.map Prod.fst
    have hnd2 : (i :: rem2.map Prod.fst).Nodup := hfstperm.nodup_iff.mp hnd
    have hpos2 : ∀ x ∈ rem2, 0 < x.2 := fun x hx =>
      hpos x (hperm.mem_iff.mpr (List.mem_cons_of_mem _ hx))
    have ihres := ih (t + 1) rem2 hpos2 (List.nodup_cons.mp hnd2).2 (by omega)
    have hunf : drawLoop u t (k + 1) rem = i :: drawLoop u (t + 1) k rem2 := by
      simp only [drawLoop]
      rw [heq]
    rw [hunf]
    refine ⟨by simp [ihres.1], ?_, ?_⟩
    · rw [List.nodup_cons]
      exact ⟨fun hmem => (List.nodup_cons.mp hnd2).1 (ihres.2.2 i hmem), ihres.2.1⟩
    · intro j hj
      rcases List.mem_cons.mp hj with rfl | hj2
      · exact hfstperm.mem_iff.mpr (List.mem_cons_self _ _)
      · exact hfstperm.mem_iff.mpr (List.mem_cons_of_mem _ (ihres.2.2 j hj2))

theorem weighted_sample_ok (pool : List Question) (n : ℕ) (weights : List (String × ℚ))
    (u : ℕ → ℚ) (shuffle : List Question → List Question)
    (hw : ∀ p ∈ weights, 0 < p.2) (hu : ∀ s, 0 ≤ u s ∧ u s < 1)
    (hs : ∀ l, (shuffle l).Perm l) :
    ∃ l, weighted_sample pool n weights u shuffle = some l ∧
      l.length = min n pool.length ∧ (∀ q ∈ l, q ∈ pool) ∧ (pool.Nodup → l.Nodup) := by
  by_cases hemp : pool.isEmpty = true
  · have hpool : pool = [] := by simpa using hemp
    subst hpool
    exact ⟨[], by simp [weighted_sample], by simp, by simp, by simp⟩
  · have hpoolne : pool ≠ [] := by simpa using hemp
    have hposw : ∀ x ∈ pool.map (fun q => getWeight weights q.id), 0 < x := by
      intro x hx
      obtain ⟨q, _, rfl⟩ := List.mem_map.mp hx
      exact getWeight_pos weights q.id hw
    have htot : 0 < (pool.map (fun q => getWeight weights q.id)).sum :=
      List.sum_pos _ hposw (by simpa using hpoolne)
    set total := (pool.map (fun q => getWeight weights q.id)).sum with htotdef
    set probs := (pool.map (fun q => getWeight weights q.id)).map (fun w => w / total)
      with hprobs
    have hprobslen : probs.length = pool.length := by simp [hprobs]
    set rem := (List.range pool.length).zip probs with hrem
    have hremfst : rem.map Prod.fst = List.range pool.length := by
      rw [hrem]
      exact List.map_fst_zip _ _ (by simp [hprobslen])
    have hremlen : rem.length = pool.length := by
      simp [hrem, hprobslen]
    have hrempos : ∀ x ∈ rem, 0 < x.2 := by
      intro x hx
      obtain ⟨_, hx2⟩ := List.of_mem_zip (by exact hx)
      obtain ⟨w, hw2, hweq⟩ := List.mem_map.mp hx2
      rw [← hweq]
      exact div_pos (hposw w hw2) htot
    have hremnd : (rem.map Prod.fst).Nodup := by
      rw [hremfst]
      exact List.nodup_range _
    have hk : min n pool.length ≤ rem.length := by
      rw [hremlen]
      exact min_le_right _ _
    obtain ⟨hLlen, hLnd, hLmem⟩ :=
      drawLoop_spec u hu (min n pool.length) 0 rem hrempos hremnd hk
    set chosenIdx := drawLoop u 0 (min n pool.length) rem with hchosen
    have hmemlt : ∀ i ∈ chosenIdx, i < pool.length := by
      intro i hi
      have := hLmem i hi
      rw [hremfst] at this
      exact List.mem_range.mp this
    set mapped := chosenIdx.map (fun i => pool.getD i defaultQ) with hmapped
    have hmappedlen : mapped.length = min n pool.length := by
      simp [hmapped, hLlen]
    have hmappedmem : ∀ q ∈ mapped, q ∈ pool := by
      intro q hq
      obtain ⟨i, hi, rfl⟩ := List.mem_map.mp hq
      rw [List.getD_eq_getElem pool defaultQ (hmemlt i hi)]
      exact List.getElem_mem _
    have hmappednd : pool.Nodup → mapped.Nodup := by
      intro hnd
      apply List.Nodup.map_on _ hLnd
      intro x hx y hy hxy
      rw [List.getD_eq_getElem pool defaultQ (hmemlt x hx),
        List.getD_eq_getElem pool defaultQ (hmemlt y hy)] at hxy
      exact (List.Nodup.getElem_inj_iff hnd).mp hxy
    refine ⟨shuffle mapped, ?_, ?_, ?_, ?_⟩
    · simp only [weighted_sample]
      rw [if_neg hemp,
        if_neg (show ¬(pool.map (fun q => getWeight weights q.id)).sum = 0 from htot.ne')]
    · rw [(hs mapped).length_eq, hmappedlen]
    · intro q hq
      exact hmappedmem q ((hs mapped).mem_iff.mp hq)
    · intro hnd
      exact ((hs mapped).nodup_iff).mpr (hmappednd hnd)

/-- Claim C1 (amended): for a pool of pairwise-distinct questions and a
weight map whose values are all positive (the program maintains every
stored weight in [1.0, 5.0]), weighted_sample returns exactly
min(count, len(pool)) pairwise-distinct items, all drawn from the pool,
and an empty pool yields the empty list rather than an error. -/
theorem weighted_sample_spec (pool : List Question) (n : ℕ) (weights : List (String × ℚ))
    (u : ℕ → ℚ) (shuffle : List Question → List Question)
    (hw : ∀ p ∈ weights, 0 < p.2) (hu : ∀ s, 0 ≤ u s ∧ u s < 1)
    (hs : ∀ l, (shuffle l).Perm l) (hnd : pool.Nodup) :
    ∃ l, weighted_sample pool n weights u shuffle = some l ∧
      l.length = min n pool.length ∧ l.Nodup ∧ ∀ q ∈ l, q ∈ pool := by
  obtain ⟨l, h1, h2, h3, h4⟩ := weighted_sample_ok pool n weights u shuffle hw hu hs
  exact ⟨l, h1, h2, h4 hnd, h3⟩

/-- Claim C1 counterexample: the claim quantifies over every weight map and
every pool, but with the weight map sending the only pool question to 0
the Python code divides by the zero total weight and raises
ZeroDivisionError (modelled by none) instead of returning one item, and on
a pool that repeats a question the returned items are not pairwise
distinct. -/
theorem weighted_sample_cex :
    weighted_sample [qex1] 1 [("q1", 0)] u0 id = none ∧
    weighted_sample [qex1, qex1] 2 [] u0 id = some [qex1, qex1] ∧
    ¬ ([qex1, qex1].Nodup) := by
  refine ⟨?_, ?_, by simp⟩
  · norm_num [weighted_sample, drawLoop, drawOneAux, getWeight, alookup, qex1, u0]
  · norm_num [weighted_sample, drawLoop, drawOneAux, getWeight, alookup, qex1, u0,
      List.range_succ, defaultQ]

/-- Witness for weighted_sample_spec at a concrete two-question pool. -/
theorem weighted_sample_spec_witness :
    ∃ l, weighted_sample [qex1, qex2] 5 [] u0 id = some l ∧
      l.length = min 5 [qex1, qex2].length ∧ l.Nodup ∧ ∀ q ∈ l, q ∈ [qex1, qex2] :=
  weighted_sample_spec [qex1, qex2] 5 [] u0 id (by simp)
    (fun s => ⟨le_rfl, by norm_num [u0]⟩) (fun l => List.Perm.refl l) (by decide)

theorem mem_insertWeight (ws : List (String × ℚ)) (k : String) (v : ℚ) :
    ∀ p ∈ insertWeight ws k v, p = (k, v) ∨ p ∈ ws := by
  induction ws with
  | nil => intro p hp; simp [insertWeight] at hp; simp [hp]
  | cons hd tl ih =>
    obtain ⟨k0, v0⟩ := hd
    intro p hp
    by_cases hk : k0 = k
    · simp only [insertWeight, if_pos hk] at hp
      rcases List.mem_cons.mp hp with rfl | hp2
      · exact Or.inl rfl
      · exact Or.inr (List.mem_cons_of_mem _ hp2)
    · simp only [insertWeight, if_neg hk] at hp
      rcases List.mem_cons.mp hp with rfl | hp2
      · exact Or.inr (List.mem_cons_self _ _)
      · rcases ih p hp2 with h1 | h2
        · exact Or.inl h1
        · exact Or.inr (List.mem_cons_of_mem _ h2)

theorem alookup_insertWeight_self (ws : List (String × ℚ)) (k : String) (v : ℚ) :
    alookup k (insertWeight ws k v) = some v := by
  induction ws with
  | nil => simp [insertWeight, alookup]
  | cons hd tl ih =>
    obtain ⟨k0, v0⟩ := hd
    by_cases hk : k0 = k
    · simp [insertWeight, if_pos hk, alookup]
    · simp [insertWeight, if_neg hk, alookup, hk, ih]

theorem alookup_insertWeight_ne (ws : List (String × ℚ)) (k k2 : String) (v : ℚ)
    (hne : k2 ≠ k) : alookup k2 (insertWeight ws k v) = alookup k2 ws := by
  have hkk2 : k ≠ k2 := fun he => hne he.symm
  induction ws with
  | nil => simp [insertWeight, alookup, hkk2]
  | cons hd tl ih =>
    obtain ⟨k0, v0⟩ := hd
    by_cases hk : k0 = k
    · subst hk
      simp [insertWeight, alookup, hkk2]
    · simp only [insertWeight, if_neg hk, alookup]
      by_cases hk2 : k0 = k2
      · simp [hk2]
      · simp [hk2, ih]

theorem getWeight_insertWeight_self (ws : List (String × ℚ)) (k : String) (v : ℚ) :
    getWeight (insertWeight ws k v) k = v := by
  simp [getWeight, alookup_insertWeight_self]

theorem getWeight_insertWeight_ne (ws : List (String × ℚ)) (k k2 : String) (v : ℚ)
    (hne : k2 ≠ k) : getWeight (insertWeight ws k v) k2 = getWeight ws k2 := by
  simp [getWeight, alookup_insertWeight_ne ws k k2 v hne]

theorem getWeight_bounds (ws : List (String × ℚ)) (qid : String)
    (hW : ∀ p ∈ ws, 1 ≤ p.2 ∧ p.2 ≤ 5) :
    1 ≤ getWeight ws qid ∧ getWeight ws qid ≤ 5 := by
  unfold getWeight
  cases hals : alookup qid ws with
  | none => norm_num
  | some w => simpa using hW (qid, w) (alookup_mem _ _ hals)

theorem applyWeightUpdate_bounds (w : ℚ) (ua : Option ℕ) (c : ℕ)
    (h1 : 1 ≤ w) (h5 : w ≤ 5) :
    1 ≤ applyWeightUpdate w ua c ∧ applyWeightUpdate w ua c ≤ 5 := by
  cases ua with
  | none =>
    refine ⟨le_min (by nlinarith) (by norm_num), min_le_right _ _⟩
  | some a =>
    by_cases hac : a ≠ c
    · simp only [applyWeightUpdate, if_pos hac]
      exact ⟨le_min (by nlinarith) (by norm_num), min_le_right _ _⟩
    · simp only [applyWeightUpdate, if_neg hac]
      exact ⟨le_max_right _ _, max_le (by nlinarith) (by norm_num)⟩

theorem updateLoop_bounds (answers : List (ℕ × ℕ)) :
    ∀ (qs : List Question) (i : ℕ) (ws : List (String × ℚ)),
      (∀ p ∈ ws, 1 ≤ p.2 ∧ p.2 ≤ 5) →
      ∀ p ∈ updateLoop answers i qs ws, 1 ≤ p.2 ∧ p.2 ≤ 5 := by
  intro qs
  induction qs with
  | nil => intro i ws hW p hp; exact hW p hp
  | cons q rest ih =>
    intro i ws hW p hp
    refine ih (i + 1) _ ?_ p hp
    intro p2 hp2
    rcases mem_insertWeight _ _ _ p2 hp2 with rfl | hmem
    · have hb := getWeight_bounds ws q.id hW
      exact applyWeightUpdate_bounds _ _ _ hb.1 hb.2
    · exact hW p2 hmem

theorem updateLoop_not_mem (answers : List (ℕ × ℕ)) :
    ∀ (qs : List Question) (i : ℕ) (ws : List (String × ℚ)) (qid : String),
      qid ∉ qs.map Question.id →
      getWeight (updateLoop answers i qs ws) qid = getWeight ws qid := by
  intro qs
  induction qs with
  | nil => intro i ws qid _; rfl
  | cons q rest ih =>
    intro i ws qid hmem
    simp only [List.map_cons, List.mem_cons, not_or] at hmem
    rw [updateLoop, ih (i + 1) _ qid hmem.2,
      getWeight_insertWeight_ne _ _ _ _ hmem.1]

theorem updateLoop_get (answers : List (ℕ × ℕ)) :
    ∀ (qs : List Question) (i : ℕ) (ws : List (String × ℚ)),
      (qs.map Question.id).Nodup →
      ∀ (j : ℕ) (hj : j < qs.length),
        getWeight (updateLoop answers i qs ws) (qs[j].id) =
          applyWeightUpdate (getWeight ws (qs[j].id)) (alookup (i + j) answers) (qs[j].ans) := by
  intro qs
  induction qs with
  | nil => intro i ws _ j hj; simp at hj
  | cons q rest ih =>
    intro i ws hnd j hj
    simp only [List.map_cons, List.nodup_cons] at hnd
    cases j with
    | zero =>
      simp only [List.getElem_cons_zero]
      rw [updateLoop, updateLoop_not_mem answers rest (i + 1) _ q.id hnd.1,
        getWeight_insertWeight_self]
      norm_num
    | succ m =>
      simp only [List.getElem_cons_succ]
      have hm : m < rest.length := by simpa using hj
      have hrid : rest[m].id ∈ rest.map Question.id :=
        List.mem_map.mpr ⟨rest[m], List.getElem_mem hm, rfl⟩
      have hne : rest[m].id ≠ q.id := fun he => hnd.1 (he ▸ hrid)
      rw [updateLoop, ih (i + 1) _ hnd.2 m hm,
        getWeight_insertWeight_ne _ _ _ _ hne]
      congr 2
      omega

/-- Claim C2: starting from a weight map whose values lie in [1.0, 5.0],
update_question_weights sets the weight of each session question, read
with default 1.0 when absent, to min(weight * 1.5, 5.0) when unanswered,
min(weight * 1.3, 5.0) when answered incorrectly and max(weight * 0.8, 1.0)
when answered correctly, and every weight in the resulting map again lies
in [1.0, 5.0]. -/
theorem update_question_weights_spec (questions : List Question) (answers : List (ℕ × ℕ))
    (weights : List (String × ℚ))
    (hW : ∀ p ∈ weights, 1 ≤ p.2 ∧ p.2 ≤ 5)
    (hnd : (questions.map Question.id).Nodup) :
    (∀ p ∈ update_question_weights questions answers weights, 1 ≤ p.2 ∧ p.2 ≤ 5) ∧
    ∀ (j : ℕ) (hj : j < questions.length),
      getWeight (update_question_weights questions answers weights) (questions[j].id) =
        applyWeightUpdate (getWeight weights (questions[j].id)) (alookup j answers)
          (questions[j].ans) := by
  constructor
  · exact updateLoop_bounds answers questions 0 weights hW
  · intro j hj
    have := updateLoop_get answers questions 0 weights hnd j hj
    simpa using this

/-- Witness for update_question_weights_spec: one question answered
incorrectly with prior weight 2. -/
theorem update_question_weights_spec_witness :
    (∀ p ∈ update_question_weights [qex1] [(0, 1)] [("q1", 2)], 1 ≤ p.2 ∧ p.2 ≤ 5) ∧
    ∀ (j : ℕ) (hj : j < [qex1].length),
      getWeight (update_question_weights [qex1] [(0, 1)] [("q1", 2)]) ([qex1][j].id) =
        applyWeightUpdate (getWeight [("q1", 2)] ([qex1][j].id)) (alookup j [(0, 1)])
          ([qex1][j].ans) :=
  update_question_weights_spec [qex1] [(0, 1)] [("q1", 2)]
    (by intro p hp; simp at hp; subst hp; norm_num) (by simp [qex1])

theorem gradeLoop_sum (a : List (ℕ × ℕ)) :
    ∀ (qs : List Question) (i : ℕ),
      (gradeLoop a i qs).1 + (gradeLoop a i qs).2.1 + (gradeLoop a i qs).2.2 = qs.length := by
  intro qs
  induction qs with
  | nil => intro i; simp [gradeLoop]
  | cons q rest ih =>
    intro i
    have := ih (i + 1)
    simp only [gradeLoop, List.length_cons]
    cases alookup i a with
    | none => simpa using by omega
    | some ua =>
      by_cases hua : ua = q.ans
      · simp only [if_pos hua]
        omega
      · simp only [if_neg hua]
        omega

theorem gradeLoop_counts (a : List (ℕ × ℕ)) :
    ∀ (qs : List Question) (i : ℕ),
      (gradeLoop a i qs).1 = (List.enumFrom i qs).countP
          (fun p => decide (alookup p.1 a = some p.2.ans)) ∧
      (gradeLoop a i qs).2.1 = (List.enumFrom i qs).countP
          (fun p => decide ((alookup p.1 a).isSome = true ∧ alookup p.1 a ≠ some p.2.ans)) ∧
      (gradeLoop a i qs).2.2 = (List.enumFrom i qs).countP
          (fun p => (alookup p.1 a).isNone) := by
  intro qs
  induction qs with
  | nil => intro i; simp [gradeLoop]
  | cons q rest ih =>
    intro i
    obtain ⟨ih1, ih2, ih3⟩ := ih (i + 1)
    simp only [gradeLoop, List.enumFrom, List.countP_cons]
    cases hal : alookup i a with
    | none =>
      simp only [hal]
      refine ⟨by simpa using ih1, by simpa using ih2, by simpa using ih3⟩
    | some ua =>
      by_cases hua : ua = q.ans
      · subst hua
        simp only [hal, if_pos rfl]
        refine ⟨by simpa using ih1, by simpa using ih2, by simpa using ih3⟩
      · simp only [hal, if_neg hua]
        have hne : ¬(some ua = some q.ans) := by simpa using hua
        refine ⟨by simpa [hne] using ih1, by simpa [hne] using ih2, by simpa using ih3⟩

theorem pyRound_int (z : ℤ) : pyRound (z : ℚ) = z := by
  simp [pyRound, Int.floor_intCast]

/-- Claim C3: grading classifies every question index as exactly one of
correct, wrong or unanswered, so the three counts sum to the number of
questions; the score is round(correct / total * 100) with the Python
banker rounding, yielding 100 when everything is correct and 0 when
nothing is. -/
theorem submit_grading_spec (st : AppState) (now : ℤ) (d : String) (test : TestSession)
    (h : st.current_test = some test) (hq : test.questions ≠ []) :
    ∃ st2 r, submit_test st now d = some st2 ∧ st2.last_result = some r ∧
      r.correct + r.wrong + r.unanswered = r.total_q ∧
      r.total_q = test.questions.length ∧
      r.correct = (List.enumFrom 0 test.questions).countP
        (fun p => decide (alookup p.1 st.answers = some p.2.ans)) ∧
      r.wrong = (List.enumFrom 0 test.questions).countP
        (fun p => decide ((alookup p.1 st.answers).isSome = true ∧
          alookup p.1 st.answers ≠ some p.2.ans)) ∧
      r.unanswered = (List.enumFrom 0 test.questions).countP
        (fun p => (alookup p.1 st.answers).isNone) ∧
      r.score = pyRound ((r.correct : ℚ) / (r.total_q : ℚ) * 100) ∧
      (r.correct = r.total_q → r.score = 100) ∧
      (r.correct = 0 → r.score = 0) := by
  have hn : ¬(test.questions.length = 0) := by
    simpa using hq
  simp only [submit_test, h, if_neg hn]
  refine ⟨_, _, rfl, rfl, ?_, rfl, ?_, ?_, ?_, rfl, ?_, ?_⟩
  · exact gradeLoop_sum st.answers test.questions 0
  · exact (gradeLoop_counts st.answers test.questions 0).1
  · exact (gradeLoop_counts st.answers test.questions 0).2.1
  · exact (gradeLoop_counts st.answers test.questions 0).2.2
  · intro hcn
    dsimp only at hcn ⊢
    rw [hcn, div_self (show ((test.questions.length : ℚ)) ≠ 0 by exact_mod_cast hn), one_mul]
    norm_num [pyRound]
  · intro hc0
    dsimp only at hc0 ⊢
    rw [hc0]
    norm_num [pyRound]

/-- Witness for submit_grading_spec on a live one-question session. -/
theorem submit_grading_spec_witness :
    ∃ st2 r, submit_test stAct 10 "d" = some st2 ∧ st2.last_result = some r ∧
      r.correct + r.wrong + r.unanswered = r.total_q ∧
      r.total_q = sessEx.questions.length ∧
      r.correct = (List.enumFrom 0 sessEx.questions).countP
        (fun p => decide (alookup p.1 stAct.answers = some p.2.ans)) ∧
      r.wrong = (List.enumFrom 0 sessEx.questions).countP
        (fun p => decide ((alookup p.1 stAct.answers).isSome = true ∧
          alookup p.1 stAct.answers ≠ some p.2.ans)) ∧
      r.unanswered = (List.enumFrom 0 sessEx.questions).countP
        (fun p => (alookup p.1 stAct.answers).isNone) ∧
      r.score = pyRound ((r.correct : ℚ) / (r.total_q : ℚ) * 100) ∧
      (r.correct = r.total_q → r.score = 100) ∧
      (r.correct = 0 → r.score = 0) :=
  submit_grading_spec stAct 10 "d" sessEx rfl (by simp [sessEx])

/-- Claim C9: for a live session the recomputed remaining time equals
max(0, timeLimit − elapsed) and is never negative; when it reaches 0 the
render step behaves exactly as a submit call, and on the resulting state
the live session is cleared so that neither a further submit nor a further
render grades a second time. -/
theorem render_timer_spec (st : AppState) (now : ℤ) (d : String) (test : TestSession)
    (h : st.current_test = some test) (hq : test.questions ≠ []) :
    0 ≤ max 0 ((test.time_limit : ℤ) - (now - st.test_start)) ∧
    (0 < max 0 ((test.time_limit : ℤ) - (now - st.test_start)) →
      render_active_test st now d =
        some { st with time_remaining := max 0 ((test.time_limit : ℤ) - (now - st.test_start)) }) ∧
    (max 0 ((test.time_limit : ℤ) - (now - st.test_start)) = 0 →
      render_active_test st now d =
        submit_test { st with time_remaining := 0 } now d ∧
      ∃ st2, render_active_test st now d = some st2 ∧ st2.current_test = none ∧
        (∀ (now2 : ℤ) (d2 : String), submit_test st2 now2 d2 = some st2) ∧
        (∀ (now2 : ℤ) (d2 : String),
          render_active_test st2 now2 d2 = some { st2 with page := "home" })) := by
  refine ⟨le_max_left _ _, ?_, ?_⟩
  · intro hpos
    simp only [render_active_test, h]
    rw [if_neg (not_le.mpr hpos)]
  · intro hzero
    have hsub : render_active_test st now d = submit_test { st with time_remaining := 0 } now d := by
      simp only [render_active_test, h]
      rw [if_pos (le_of_eq hzero), hzero]
    refine ⟨hsub, ?_⟩
    have hn : ¬(test.questions.length = 0) := by simpa using hq
    rw [hsub]
    simp only [submit_test, h, if_neg hn]
    exact ⟨_, rfl, rfl, fun now2 d2 => rfl, fun now2 d2 => rfl⟩

/-- Witness for render_timer_spec at the instant the deadline expires. -/
theorem render_timer_spec_witness :
    0 ≤ max 0 ((sessEx.time_limit : ℤ) - (300 - stAct.test_start)) ∧
    (0 < max 0 ((sessEx.time_limit : ℤ) - (300 - stAct.test_start)) →
      render_active_test stAct 300 "d" =
        some { stAct with
          time_remaining := max 0 ((sessEx.time_limit : ℤ) - (300 - stAct.test_start)) }) ∧
    (max 0 ((sessEx.time_limit : ℤ) - (300 - stAct.test_start)) = 0 →
      render_active_test stAct 300 "d" =
        submit_test { stAct with time_remaining := 0 } 300 "d" ∧
      ∃ st2, render_active_test stAct 300 "d" = some st2 ∧ st2.current_test = none ∧
        (∀ (now2 : ℤ) (d2 : String), submit_test st2 now2 d2 = some st2) ∧
        (∀ (now2 : ℤ) (d2 : String),
          render_active_test st2 now2 d2 = some { st2 with page := "home" })) :=
  render_timer_spec stAct 300 "d" sessEx rfl (by simp [sessEx])

/-- Claim C10: submit_test divides by the question count with no zero
guard, so grading succeeds exactly for sessions with a non-empty question
list, while start_test for an unknown category builds a zero-question
session without error: the sampler legitimately returns the empty list on
the empty merged pool. -/
theorem zero_question_session (bank : List (String × List Question))
    (platform_styles : List String) (aiQs : String → List Question)
    (u : ℕ → ℚ) (shuffle : List Question → List Question)
    (st : AppState) (sid : String) (nowT : ℤ) (category : String)
    (h1 : alookup category bank = none) (h2 : category ∉ platform_styles)
    (h3 : category ≠ "BLEND") :
    (∃ st2 s, start_test bank platform_styles aiQs u shuffle st sid nowT category false =
        some st2 ∧
      st2.current_test = some s ∧ s.questions = [] ∧
      ∀ (now : ℤ) (d : String), submit_test st2 now d = none) ∧
    ∀ (st3 : AppState) (test : TestSession) (now : ℤ) (d : String),
      st3.current_test = some test →
      ((submit_test st3 now d).isSome ↔ test.questions ≠ []) := by
  have hpool : poolFor bank platform_styles aiQs category = [] := by
    simp [poolFor, h1, h2]
  have hpick : pickQuestions bank platform_styles aiQs st.question_weights u shuffle category false
      = some ([], 300) := by
    norm_num [pickQuestions, h3, hpool, weighted_sample]
  constructor
  · have hstart : start_test bank platform_styles aiQs u shuffle st sid nowT category false =
        some { st with
          current_test := some (TestSession.mk sid category [] 300 false),
          answers := [], flagged := [], current_q := 0, time_remaining := (300 : ℤ),
          test_start := nowT, page := "active_test" } := by
      rw [start_test, hpick]
      rfl
    exact ⟨_, _, hstart, rfl, rfl, fun now d => rfl⟩
  · intro st3 test now d hct
    simp only [submit_test, hct]
    by_cases hn : test.questions.length = 0
    · rw [if_pos hn]
      simp [List.length_eq_zero.mp hn]
    · rw [if_neg hn]
      simpa using fun he => hn (by simp [he])

/-- Witness for zero_question_session at an unknown category of the
concrete bank. -/
theorem zero_question_session_witness :
    (∃ st2 s, start_test bankEx [] (fun _ => []) u0 id st0 "s" 0 "ZZZ" false = some st2 ∧
      st2.current_test = some s ∧ s.questions = [] ∧
      ∀ (now : ℤ) (d : String), submit_test st2 now d = none) ∧
    ∀ (st3 : AppState) (test : TestSession) (now : ℤ) (d : String),
      st3.current_test = some test →
      ((submit_test st3 now d).isSome ↔ test.questions ≠ []) :=
  zero_question_session bankEx [] (fun _ => []) u0 id st0 "s" 0 "ZZZ"
    (by decide) (by simp) (by decide)

/-- Claim C5: start_test fixes the target question count at 5 in quick
mode and 60 for the blended category, and otherwise at min(20, poolSize);
the time limit is a flat 5 * 60 = 300 seconds in quick mode, a flat
(60 - 5) * 60 = 3300 seconds for blended, and max(count - 5, 5) * 60
seconds otherwise. -/
theorem start_test_count_time_spec (bank : List (String × List Question))
    (platform_styles : List String) (aiQs : String → List Question)
    (u : ℕ → ℚ) (shuffle : List Question → List Question)
    (st : AppState) (sid : String) (nowT : ℤ) (category : String) (sample : Bool)
    (hw : ∀ p ∈ st.question_weights, 0 < p.2)
    (hu : ∀ s, 0 ≤ u s ∧ u s < 1)
    (hs : ∀ l, (shuffle l).Perm l) :
    ∃ st2 s, start_test bank platform_styles aiQs u shuffle st sid nowT category sample =
        some st2 ∧
      st2.current_test = some s ∧
      (sample = true →
        s.time_limit = 5 * 60 ∧
        s.questions.length = min 5 (if category = "BLEND" then (allBankQs bank).length
          else (poolFor bank platform_styles aiQs category).length)) ∧
      (sample = false → category = "BLEND" →
        s.time_limit = (60 - 5) * 60 ∧ s.questions.length = min 60 (allBankQs bank).length) ∧
      (sample = false → category ≠ "BLEND" →
        s.time_limit = max (min (poolFor bank platform_styles aiQs category).length 20 - 5) 5 * 60 ∧
        s.questions.length = min (poolFor bank platform_styles aiQs category).length 20) := by
  cases sample with
  | true =>
    obtain ⟨l1, hl1, hlen1, -, -⟩ := weighted_sample_ok
      (if category = "BLEND" then allBankQs bank else poolFor bank platform_styles aiQs category)
      5 st.question_weights u shuffle hw hu hs
    have hpick : pickQuestions bank platform_styles aiQs st.question_weights u shuffle
        category true = some (l1, 5 * 60) := by
      show (weighted_sample
          (if category = "BLEND" then allBankQs bank
           else poolFor bank platform_styles aiQs category)
          5 st.question_weights u shuffle).map (fun qs => (qs, 5 * 60)) = some (l1, 5 * 60)
      rw [hl1]
      rfl
    have hstart : start_test bank platform_styles aiQs u shuffle st sid nowT category true =
        some { st with
          current_test := some (TestSession.mk sid category l1 (5 * 60) true),
          answers := [], flagged := [], current_q := 0, time_remaining := ((5 * 60 : ℕ) : ℤ),
          test_start := nowT, page := "active_test" } := by
      rw [start_test, hpick]
      rfl
    refine ⟨_, _, hstart, rfl, fun _ => ⟨rfl, ?_⟩, fun h => absurd h (by simp),
      fun h => absurd h (by simp)⟩
    by_cases hb : category = "BLEND" <;> simpa [hb] using hlen1
  | false =>
    by_cases hb : category = "BLEND"
    · subst hb
      obtain ⟨l2, hl2, hlen2, -, -⟩ := weighted_sample_ok (allBankQs bank) 60
        st.question_weights u shuffle hw hu hs
      have hpick : pickQuestions bank platform_styles aiQs st.question_weights u shuffle
          "BLEND" false = some (l2, (60 - 5) * 60) := by
        show (build_blended_test bank st.question_weights u shuffle 60).map
            (fun qs => (qs, (60 - 5) * 60)) = some (l2, (60 - 5) * 60)
        rw [build_blended_test, hl2]
        rfl
      have hstart : start_test bank platform_styles aiQs u shuffle st sid nowT "BLEND" false =
          some { st with
            current_test := some (TestSession.mk sid "BLEND" l2 ((60 - 5) * 60) false),
            answers := [], flagged := [], current_q := 0,
            time_remaining := (((60 - 5) * 60 : ℕ) : ℤ),
            test_start := nowT, page := "active_test" } := by
        rw [start_test, hpick]
        rfl
      exact ⟨_, _, hstart, rfl, fun h => absurd h (by simp),
        fun _ _ => ⟨rfl, hlen2⟩, fun _ h => absurd rfl h⟩
    · obtain ⟨l3, hl3, hlen3, -, -⟩ := weighted_sample_ok
        (poolFor bank platform_styles aiQs category)
        (min (poolFor bank platform_styles aiQs category).length 20)
        st.question_weights u shuffle hw hu hs
      have hpick : pickQuestions bank platform_styles aiQs st.question_weights u shuffle
          category false = some (l3,
            max (min (poolFor bank platform_styles aiQs category).length 20 - 5) 5 * 60) := by
        simp only [pickQuestions, Bool.false_eq_true, if_false, if_neg hb]
        rw [hl3]
        rfl
      have hstart : start_test bank platform_styles aiQs u shuffle st sid nowT category false =
          some { st with
            current_test := some (TestSession.mk sid category l3
              (max (min (poolFor bank platform_styles aiQs category).length 20 - 5) 5 * 60)
              false),
            answers := [], flagged := [], current_q := 0,
            time_remaining := ((max (min (poolFor bank platform_styles aiQs category).length 20
              - 5) 5 * 60 : ℕ) : ℤ),
            test_start := nowT, page := "active_test" } := by
        rw [start_test, hpick]
        rfl
      refine ⟨_, _, hstart, rfl, fun h => absurd h (by simp), fun _ hbe => absurd hbe hb,
        fun _ _ => ⟨rfl, ?_⟩⟩
      rw [hlen3]
      omega

/-- Claim C4 (amended): when the pool of the requested (non-blended)
category has fewer items than the target count, start_test does not error,
but it also does not widen sampling to other categories: it lowers the
returned count to the pool size (min of target and pool size) and every
returned question comes from the requested category pool (the static bank
entry plus its own AI augmentation) alone. -/
theorem start_test_no_widen (bank : List (String × List Question))
    (platform_styles : List String) (aiQs : String → List Question)
    (u : ℕ → ℚ) (shuffle : List Question → List Question)
    (st : AppState) (sid : String) (nowT : ℤ) (category : String) (sample : Bool)
    (hcat : category ≠ "BLEND")
    (hw : ∀ p ∈ st.question_weights, 0 < p.2)
    (hu : ∀ s, 0 ≤ u s ∧ u s < 1)
    (hs : ∀ l, (shuffle l).Perm l) :
    ∃ st2 s, start_test bank platform_styles aiQs u shuffle st sid nowT category sample =
        some st2 ∧
      st2.current_test = some s ∧
      s.questions.length =
        min (if sample then 5 else min (poolFor bank platform_styles aiQs category).length 20)
          (poolFor bank platform_styles aiQs category).length ∧
      ∀ q ∈ s.questions, q ∈ poolFor bank platform_styles aiQs category := by
  have hifp : (if category = "BLEND" then allBankQs bank
      else poolFor bank platform_styles aiQs category) =
      poolFor bank platform_styles aiQs category := if_neg hcat
  cases sample with
  | true =>
    obtain ⟨l1, hl1, hlen1, hmem1, -⟩ := weighted_sample_ok
      (poolFor bank platform_styles aiQs category) 5 st.question_weights u shuffle hw hu hs
    have hpick : pickQuestions bank platform_styles aiQs st.question_weights u shuffle
        category true = some (l1, 5 * 60) := by
      show (weighted_sample
          (if category = "BLEND" then allBankQs bank
           else poolFor bank platform_styles aiQs category)
          5 st.question_weights u shuffle).map (fun qs => (qs, 5 * 60)) = some (l1, 5 * 60)
      rw [hifp, hl1]
      rfl
    have hstart : start_test bank platform_styles aiQs u shuffle st sid nowT category true =
        some { st with
          current_test := some (TestSession.mk sid category l1 (5 * 60) true),
          answers := [], flagged := [], current_q := 0, time_remaining := ((5 * 60 : ℕ) : ℤ),
          test_start := nowT, page := "active_test" } := by
      rw [start_test, hpick]
      rfl
    exact ⟨_, _, hstart, rfl, by simpa using hlen1, hmem1⟩
  | false =>
    obtain ⟨l3, hl3, hlen3, hmem3, -⟩ := weighted_sample_ok
      (poolFor bank platform_styles aiQs category)
      (min (poolFor bank platform_styles aiQs category).length 20)
      st.question_weights u shuffle hw hu hs
    have hpick : pickQuestions bank platform_styles aiQs st.question_weights u shuffle
        category false = some (l3,
          max (min (poolFor bank platform_styles aiQs category).length 20 - 5) 5 * 60) := by
      simp only [pickQuestions, Bool.false_eq_true, if_false, if_neg hcat]
      rw [hl3]
      rfl
    have hstart : start_test bank platform_styles aiQs u shuffle st sid nowT category false =
        some { st with
          current_test := some (TestSession.mk sid category l3
            (max (min (poolFor bank platform_styles aiQs category).length 20 - 5) 5 * 60)
            false),
          answers := [], flagged := [], current_q := 0,
          time_remaining := ((max (min (poolFor bank platform_styles aiQs category).length 20
            - 5) 5 * 60 : ℕ) : ℤ),
          test_start := nowT, page := "active_test" } := by
      rw [start_test, hpick]
      rfl
    exact ⟨_, _, hstart, rfl, by simpa using hlen3, hmem3⟩

/-- Claim C4 counterexample: category A of the concrete bank has a single
question while the whole bank holds seven, so a widening controller would
return five questions for a quick test on A; start_test instead returns
the one question of A and nothing from category B. -/
theorem start_test_no_widen_cex :
    ((start_test bankEx [] (fun _ => []) u0 id st0 "s" 0 "A" true).bind
        (fun st2 => st2.current_test)).map (fun s => s.questions) = some [qex1] ∧
    5 ≤ (allBankQs bankEx).length := by
  have hws : weighted_sample [qex1] 5 [] u0 id = some [qex1] := by
    norm_num [weighted_sample, drawLoop, drawOneAux, getWeight, alookup, u0, qex1, defaultQ,
      List.range_succ]
  have hifr : (if "A" = "BLEND" then allBankQs bankEx
      else poolFor bankEx [] (fun _ => []) "A") = [qex1] := by
    rw [if_neg (by decide)]
    rfl
  have hpick : pickQuestions bankEx [] (fun _ => []) st0.question_weights u0 id "A" true =
      some ([qex1], 5 * 60) := by
    show (weighted_sample
        (if "A" = "BLEND" then allBankQs bankEx else poolFor bankEx [] (fun _ => []) "A")
        5 st0.question_weights u0 id).map (fun qs => (qs, 5 * 60)) = some ([qex1], 5 * 60)
    rw [hifr, show st0.question_weights = [] from rfl, hws]
    rfl
  have hstart : start_test bankEx [] (fun _ => []) u0 id st0 "s" 0 "A" true =
      some { st0 with
        current_test := some (TestSession.mk "s" "A" [qex1] (5 * 60) true),
        answers := [], flagged := [], current_q := 0, time_remaining := ((5 * 60 : ℕ) : ℤ),
        test_start := 0, page := "active_test" } := by
    rw [start_test, hpick]
    rfl
  constructor
  · rw [hstart]
    rfl
  · norm_num [allBankQs, bankEx]

/-- Witness for start_test_no_widen: a quick test on the one-question
category A of the concrete bank. -/
theorem start_test_no_widen_witness :
    ∃ st2 s, start_test bankEx [] (fun _ => []) u0 id st0 "s" 0 "A" true = some st2 ∧
      st2.current_test = some s ∧
      s.questions.length =
        min (if true then 5 else min (poolFor bankEx [] (fun _ => []) "A").length 20)
          (poolFor bankEx [] (fun _ => []) "A").length ∧
      ∀ q ∈ s.questions, q ∈ poolFor bankEx [] (fun _ => []) "A" :=
  start_test_no_widen bankEx [] (fun _ => []) u0 id st0 "s" 0 "A" true (by decide)
    (by simp [st0]) (fun s => ⟨le_rfl, by norm_num [u0]⟩) (fun l => List.Perm.refl l)

/-- Witness for start_test_count_time_spec: a standard test on category A
of the concrete bank. -/
theorem start_test_count_time_spec_witness :
    ∃ st2 s, start_test bankEx [] (fun _ => []) u0 id st0 "s" 0 "A" false = some st2 ∧
      st2.current_test = some s ∧
      (false = true →
        s.time_limit = 5 * 60 ∧
        s.questions.length = min 5 (if "A" = "BLEND" then (allBankQs bankEx).length
          else (poolFor bankEx [] (fun _ => []) "A").length)) ∧
      (false = false → "A" = "BLEND" →
        s.time_limit = (60 - 5) * 60 ∧ s.questions.length = min 60 (allBankQs bankEx).length) ∧
      (false = false → "A" ≠ "BLEND" →
        s.time_limit = max (min (poolFor bankEx [] (fun _ => []) "A").length 20 - 5) 5 * 60 ∧
        s.questions.length = min (poolFor bankEx [] (fun _ => []) "A").length 20) :=
  start_test_count_time_spec bankEx [] (fun _ => []) u0 id st0 "s" 0 "A" false
    (by simp [st0]) (fun s => ⟨le_rfl, by norm_num [u0]⟩) (fun l => List.Perm.refl l)

theorem mem_validateLoop (c hint pl ts : String) :
    ∀ (l : List JVal) (idx : ℕ) (q : Question),
      q ∈ validateLoop c hint pl ts idx l →
      ∃ i j, validateItem c hint pl ts i j = some q := by
  intro l
  induction l with
  | nil => intro idx q hq; simp [validateLoop] at hq
  | cons a rest ih =>
    intro idx q hq
    simp only [validateLoop] at hq
    cases hvi : validateItem c hint pl ts idx a with
    | none =>
      rw [hvi] at hq
      exact ih (idx + 1) q hq
    | some q2 =>
      rw [hvi] at hq
      rcases List.mem_cons.mp hq with rfl | hq2
      · exact ⟨idx, a, hvi⟩
      · exact ih (idx + 1) q hq2

theorem validateLoop_length (c hint pl ts : String) :
    ∀ (l : List JVal) (idx : ℕ),
      (validateLoop c hint pl ts idx l).length =
        (List.enumFrom idx l).countP
          (fun x => (validateItem c hint pl ts x.1 x.2).isSome) := by
  intro l
  induction l with
  | nil => intro idx; simp [validateLoop]
  | cons a rest ih =>
    intro idx
    simp only [validateLoop, List.enumFrom, List.countP_cons]
    cases hvi : validateItem c hint pl ts idx a with
    | none => simp [hvi, ih (idx + 1)]
    | some q2 => simp [hvi, ih (idx + 1)]

theorem validateItem_inv (c hint pl ts : String) (idx : ℕ) (j : JVal) (q : Question)
    (h : validateItem c hint pl ts idx j = some q) :
    ∃ fields av opts0, j = JVal.obj fields ∧
      alookup "opts" fields = some (JVal.arr opts0) ∧
      alookup "ans" fields = some av ∧
      2 ≤ opts0.length ∧
      q.opts = (opts0.take 4).map jstr ++
        List.replicate (4 - min opts0.length 4) "Not determinable" ∧
      q.ans = (match coerceAns av with
        | some a => if 0 ≤ a ∧ a < 4 then a.toNat else 0
        | none => 0) := by
  cases j with
  | str s => simp [validateItem] at h
  | num n => simp [validateItem] at h
  | boolv b => simp [validateItem] at h
  | nullv => simp [validateItem] at h
  | arr items => simp [validateItem] at h
  | obj fields =>
    cases htv : alookup "text" fields with
    | none => simp [validateItem, htv] at h
    | some tv =>
    cases hov : alookup "opts" fields with
    | none => simp [validateItem, htv, hov] at h
    | some ov =>
    cases hav : alookup "ans" fields with
    | none => simp [validateItem, htv, hov, hav] at h
    | some av =>
    cases hev : alookup "exp" fields with
    | none => simp [validateItem, htv, hov, hav, hev] at h
    | some ev =>
    cases ov with
    | str s => simp [validateItem, htv, hov, hav, hev] at h
    | num n => simp [validateItem, htv, hov, hav, hev] at h
    | boolv b => simp [validateItem, htv, hov, hav, hev] at h
    | nullv => simp [validateItem, htv, hov, hav, hev] at h
    | obj f2 => simp [validateItem, htv, hov, hav, hev] at h
    | arr opts0 =>
      by_cases hlt : opts0.length < 2
      · simp [validateItem, htv, hov, hav, hev, hlt] at h
      · simp only [validateItem, htv, hov, hav, hev, if_neg hlt, Option.some.injEq] at h
        have hlen4 : ((opts0.take 4).map jstr ++
            List.replicate (4 - min opts0.length 4) "Not determinable").length = 4 := by
          simp [List.length_take]
          omega
        refine ⟨fields, av, opts0, rfl, hov, hav, by omega, ?_, ?_⟩
        · rw [← h]
        · rw [← h]
          dsimp only
          rw [hlen4]
          cases hca : coerceAns av with
          | none => rfl
          | some a =>
            simp only [hca]
            norm_num

/-- Claim C6 (amended): validation treats each parsed item independently —
the output holds exactly one question per individually valid item, and an
invalid item (non-object, missing required field, or an options value that
is not a list of length at least 2) is dropped without discarding the rest
of the batch; every accepted item has its options truncated to the first 4
or padded with the placeholder "Not determinable" up to exactly 4, and its
answer index is coerced to an integer and then replaced by 0 when the
coercion fails or the value lies outside the valid options range (the code
resets an out-of-range index to 0, it does not clamp it to the nearest
bound). -/
theorem generate_validation_spec (c hint pl ts : String) (parsed : List JVal) :
    (validateItems c hint pl ts parsed).length =
      (List.enumFrom 0 parsed).countP
        (fun x => (validateItem c hint pl ts x.1 x.2).isSome) ∧
    (∀ q ∈ validateItems c hint pl ts parsed, q.opts.length = 4 ∧ q.ans < 4) ∧
    (∀ (idx : ℕ) (j : JVal) (q : Question), validateItem c hint pl ts idx j = some q →
      ∃ fields av opts0, j = JVal.obj fields ∧
        alookup "opts" fields = some (JVal.arr opts0) ∧
        alookup "ans" fields = some av ∧ 2 ≤ opts0.length ∧
        q.opts = (opts0.take 4).map jstr ++
          List.replicate (4 - min opts0.length 4) "Not determinable" ∧
        q.ans = (match coerceAns av with
          | some a => if 0 ≤ a ∧ a < 4 then a.toNat else 0
          | none => 0)) ∧
    (∀ (idx : ℕ) (fields : List (String × JVal)),
      (alookup "text" fields = none ∨ alookup "opts" fields = none ∨
        alookup "ans" fields = none ∨ alookup "exp" fields = none) →
      validateItem c hint pl ts idx (JVal.obj fields) = none) := by
  refine ⟨validateLoop_length c hint pl ts parsed 0, ?_, ?_, ?_⟩
  · intro q hq
    obtain ⟨i, j2, hvi⟩ := mem_validateLoop c hint pl ts parsed 0 q hq
    obtain ⟨fields, av, opts0, -, -, -, h2le, hopts, hans⟩ :=
      validateItem_inv c hint pl ts i j2 q hvi
    constructor
    · rw [hopts]
      simp [List.length_take]
      omega
    · rw [hans]
      cases hca : coerceAns av with
      | none =>
        simp only [hca]
        norm_num
      | some a =>
        simp only [hca]
        by_cases hr : 0 ≤ a ∧ a < 4
        · simp only [if_pos hr]
          have h1 : (a.toNat : ℤ) = a := Int.toNat_of_nonneg hr.1
          have h2 : (a.toNat : ℤ) < 4 := h1 ▸ hr.2
          exact_mod_cast h2
        · simp only [if_neg hr]
          norm_num
  · intro idx j q hvi
    exact validateItem_inv c hint pl ts idx j q hvi
  · intro idx fields hmiss
    rcases hmiss with h | h | h | h
    · simp [validateItem, h]
    · cases htv : alookup "text" fields <;> simp [validateItem, htv, h]
    · cases htv : alookup "text" fields <;> cases hov : alookup "opts" fields <;>
        simp [validateItem, htv, hov, h]
    · cases htv : alookup "text" fields <;> cases hov : alookup "opts" fields <;>
        cases hav : alookup "ans" fields <;> simp [validateItem, htv, hov, hav, h]

/-- Claim C6 counterexample: an accepted item whose answer index 7 is out
of range for its 4 options is stored with answer index 0, not with the
range-clamped value min(7, 3) = 3, so the out-of-range index is reset, not
clamped. -/
theorem generate_validation_cex :
    (validateItem "num" "" "SHL, Kenexa" "120000" 0 itemClampEx).map Question.ans = some 0 ∧
    (validateItem "num" "" "SHL, Kenexa" "120000" 0 itemClampEx).map Question.ans ≠
      some (min 7 3) := by
  have h : (validateItem "num" "" "SHL, Kenexa" "120000" 0 itemClampEx).map Question.ans
      = some 0 := by decide
  refine ⟨h, ?_⟩
  rw [h]
  decide

/-- Witness for generate_validation_spec at a concrete batch with one
malformed item between two valid ones. -/
theorem generate_validation_spec_witness :
    (validateItems "num" "" "SHL" "120000" parsedEx).length =
      (List.enumFrom 0 parsedEx).countP
        (fun x => (validateItem "num" "" "SHL" "120000" x.1 x.2).isSome) ∧
    (∀ q ∈ validateItems "num" "" "SHL" "120000" parsedEx, q.opts.length = 4 ∧ q.ans < 4) ∧
    (∀ (idx : ℕ) (j : JVal) (q : Question),
      validateItem "num" "" "SHL" "120000" idx j = some q →
      ∃ fields av opts0, j = JVal.obj fields ∧
        alookup "opts" fields = some (JVal.arr opts0) ∧
        alookup "ans" fields = some av ∧ 2 ≤ opts0.length ∧
        q.opts = (opts0.take 4).map jstr ++
          List.replicate (4 - min opts0.length 4) "Not determinable" ∧
        q.ans = (match coerceAns av with
          | some a => if 0 ≤ a ∧ a < 4 then a.toNat else 0
          | none => 0)) ∧
    (∀ (idx : ℕ) (fields : List (String × JVal)),
      (alookup "text" fields = none ∨ alookup "opts" fields = none ∨
        alookup "ans" fields = none ∨ alookup "exp" fields = none) →
      validateItem "num" "" "SHL" "120000" idx (JVal.obj fields) = none) :=
  generate_validation_spec "num" "" "SHL" "120000" parsedEx

/-- Claim C7: the generation augmenter never raises to its caller; with an
absent credential it returns the empty list at once (normal degraded
mode), and a network failure or timeout, a non-success status, or a
non-JSON response body each also yield the empty list. -/
theorem generate_never_raises (apiKey : String) (net : NetResult)
    (pj : String → Option JVal) (category hint platforms ts : String)
    (status : ℕ) (body : Option JVal) :
    generate_ai_questions "" net pj category hint platforms ts = [] ∧
    generate_ai_questions apiKey NetResult.netError pj category hint platforms ts = [] ∧
    (status ≠ 200 →
      generate_ai_questions apiKey (NetResult.response status body) pj
        category hint platforms ts = []) ∧
    generate_ai_questions apiKey (NetResult.response status none) pj
      category hint platforms ts = [] := by
  refine ⟨rfl, ?_, ?_, ?_⟩
  · by_cases hk : apiKey = "" <;> simp [generate_ai_questions, hk]
  · intro hst
    by_cases hk : apiKey = "" <;> simp [generate_ai_questions, hk, hst]
  · by_cases hk : apiKey = "" <;> by_cases hst : status = 200 <;>
      simp [generate_ai_questions, hk, hst]

/-- Witness for generate_never_raises on concrete degraded-mode inputs. -/
theorem generate_never_raises_witness :
    generate_ai_questions "" NetResult.netError pj0 "num" "" "SHL" "120000" = [] ∧
    generate_ai_questions "k" NetResult.netError pj0 "num" "" "SHL" "120000" = [] ∧
    generate_ai_questions "k" (NetResult.response 404 (some (JVal.str "x"))) pj0
      "num" "" "SHL" "120000" = [] ∧
    generate_ai_questions "k" (NetResult.response 200 none) pj0
      "num" "" "SHL" "120000" = [] :=
  ⟨(generate_never_raises "k" NetResult.netError pj0 "num" "" "SHL" "120000" 404
      (some (JVal.str "x"))).1,
   (generate_never_raises "k" NetResult.netError pj0 "num" "" "SHL" "120000" 404
      (some (JVal.str "x"))).2.1,
   (generate_never_raises "k" NetResult.netError pj0 "num" "" "SHL" "120000" 404
      (some (JVal.str "x"))).2.2.1 (by decide),
   (generate_never_raises "k" (NetResult.response 200 none) pj0 "num" "" "SHL" "120000"
      200 none).2.2.2⟩

/-- Claim C8: load_persistent_data never raises — a missing, unreadable or
unparseable backing file yields the default document with empty history
and weights — and save_persistent_data never raises: every write failure
is caught and ignored and the in-memory state is returned unchanged as the
source of truth.  On disk, a failure of the open call leaves the old file,
a failure during the dump leaves the truncated partial file (whose next
load falls back to the default document when it does not parse), and a
successful write replaces the whole file with the serialised in-memory
document. -/
theorem load_save_best_effort :
    load_persistent_data FileRead.absent = defaultDoc ∧
    load_persistent_data FileRead.unreadable = defaultDoc ∧
    load_persistent_data (FileRead.content none) = defaultDoc ∧
    (∀ j, load_persistent_data (FileRead.content (some j)) = j) ∧
    (∀ (h w : JVal) (outcome : WriteOutcome) (old : FileRead),
      (save_persistent_data h w outcome old).2 = (h, w)) ∧
    (∀ (h w : JVal) (old : FileRead),
      (save_persistent_data h w WriteOutcome.openFails old).1 = old) ∧
    (∀ (h w : JVal) (old : FileRead) (truncated : Option JVal),
      (save_persistent_data h w (WriteOutcome.dumpFails truncated) old).1 =
        FileRead.content truncated) ∧
    (∀ (h w : JVal) (old : FileRead),
      load_persistent_data
        (save_persistent_data h w (WriteOutcome.dumpFails none) old).1 = defaultDoc) ∧
    (∀ (h w : JVal) (old : FileRead),
      (save_persistent_data h w WriteOutcome.success old).1 =
        FileRead.content (some (JVal.obj [("test_history", h), ("question_weights", w)]))) :=
  ⟨rfl, rfl, rfl, fun _ => rfl, fun _ _ _ _ => rfl, fun _ _ _ => rfl, fun _ _ _ _ => rfl,
   fun _ _ _ => rfl, fun _ _ _ => rfl⟩
